import Mathlib

/-!
Shallow embedding of the ASIN-tracker ingestion and delta core (src/app.py).

Conventions:
* Instants are integers counting minutes since the Keepa epoch
  (`datetime(2011, 1, 1)`, midnight UTC).  A calendar day is the floor
  division of the instant by 1440, matching `datetime.date()` arithmetic.
* Raw JSON scalars appearing inside a Keepa `csv` column are modelled by
  `JVal`: `null` is Python `None`, `int n` a numeric value, and `nonnum`
  any value (such as a non-numeric string) on which Python's numeric
  coercion `int(x)`, `timedelta(minutes=x)` or an order comparison raises.
* Python money arithmetic `val / 100` (with `round(·, 2)`, exact on such
  quotients) is modelled over `ℚ`.
* A Python function that can raise is modelled in `Except Unit`; a raised
  exception carries no partial result, as the local `series` list of the
  source is discarded when an exception escapes the loop.
-/

namespace AsinTracker

/-- A raw JSON scalar inside a Keepa series array. -/
inductive JVal : Type
  | null : JVal
  | int : Int → JVal
  | nonnum : JVal
deriving DecidableEq, Repr

/-- `datetime.date()` of an instant measured in minutes since the (midnight)
Keepa epoch: floor division by the number of minutes in a day. -/
def dayOf (t : Int) : Int := Int.fdiv t 1440

/-- One iteration of the `extract_keepa_series` loop of `src/app.py`
(lines 386-400) on the pair `(arr[i], arr[i+1])`: `none` means the pair is
skipped (`continue`, a `None` component, a coercion failure caught by the
`try`, or an instant before the cutoff); `some (t, v)` is the appended
entry.  A value equal to -1 or 0 or strictly above 1,000,000 is recorded
as absent; any other numeric value is divided by 100. -/
def pricePairStep (cutoff : Int) (ts v : JVal) : Option (Int × Option ℚ) :=
  match ts, v with
  | JVal.null, _ => none
  | _, JVal.null => none
  | JVal.nonnum, _ => none
  | JVal.int t, JVal.nonnum =>
      -- `int(ts)` succeeds, but `val > 1000000` raises inside the `try`
      if t < cutoff then none else none
  | JVal.int t, JVal.int n =>
      if t < cutoff then none
      else if n = -1 ∨ n = 0 ∨ 1000000 < n then some (t, none)
      else some (t, some ((n : ℚ) / 100))

/-- The `range(0, len(arr) - 1, 2)` loop of `extract_keepa_series`:
consecutive `(timestamp, value)` pairs, a trailing odd element ignored. -/
def pricePairs (cutoff : Int) : List JVal → List (Int × Option ℚ)
  | ts :: v :: rest =>
      match pricePairStep cutoff ts v with
      | none => pricePairs cutoff rest
      | some p => p :: pricePairs cutoff rest
  | _ => []

/-- `extract_keepa_series` of `src/app.py` (lines 381-401): decode a raw
interleaved Keepa price array into `(instant, value-or-absent)` entries. -/
def extract_keepa_series (cutoff : Int) (arr : List JVal) : List (Int × Option ℚ) :=
  if arr.length < 2 then [] else pricePairs cutoff arr

/-- One iteration of the second (shadowing, in-effect) definition of
`extract_keepa_int_series` in `src/app.py` (lines 425-441).  There is no
`try`/`except` here: a non-numeric timestamp makes `timedelta(minutes=ts)`
raise, aborting the whole decode (`Except.error`).  A non-numeric value,
however, passes `val == -1` (which is `False`) and is appended verbatim. -/
def intPairStep (cutoff : Int) (ts v : JVal) : Except Unit (Option (Int × JVal)) :=
  match ts, v with
  | JVal.null, _ => Except.ok none
  | _, JVal.null => Except.ok none
  | JVal.nonnum, _ => Except.error ()
  | JVal.int t, v =>
      if t < cutoff then Except.ok none
      else Except.ok (some (t, if v = JVal.int (-1) then JVal.null else v))

/-- The pair loop of the in-effect `extract_keepa_int_series`; an exception
raised mid-loop discards everything (the local list never escapes). -/
def intPairs (cutoff : Int) : List JVal → Except Unit (List (Int × JVal))
  | ts :: v :: rest =>
      match intPairStep cutoff ts v with
      | Except.error e => Except.error e
      | Except.ok none => intPairs cutoff rest
      | Except.ok (some p) => (intPairs cutoff rest).map (fun l => p :: l)
  | _ => Except.ok []

/-- The second, shadowing `extract_keepa_int_series` of `src/app.py`
(lines 425-441), the definition actually in effect at the call sites.
Result values are `JVal.null` for absent (`-1` or an explicit `None` never
arises: `None` components are skipped), and otherwise the raw value. -/
def extract_keepa_int_series (cutoff : Int) (arr : List JVal) :
    Except Unit (List (Int × JVal)) :=
  if arr.length < 2 then Except.ok [] else intPairs cutoff arr

/-! ### Daily aggregation (src/app.py lines 448-475)

Each of the four loops writes one field of the `daily` defaultdict; since a
loop only reads and writes its own field, each field is an independent fold
of the shape `if daily[day][f] is None: daily[day][f] = val`.  A field
holding Python `None` is indistinguishable from an untouched field, so a
field is an `Option` value defaulting to `none`. -/

/-- Point update of a day-indexed dictionary field. -/
def dict_set {α : Type} (m : Int → Option α) (day : Int) (v : Option α) :
    Int → Option α :=
  fun d => if d = day then v else m d

/-- One loop iteration: `day = dt.date(); if daily[day][f] is None:
daily[day][f] = val`. -/
def daily_step {α : Type} (m : Int → Option α) (p : Int × Option α) :
    Int → Option α :=
  match m (dayOf p.1) with
  | none => dict_set m (dayOf p.1) p.2
  | some _ => m

/-- The per-metric daily aggregation: fold a decoded series into the
day-indexed field, every field starting at `None`. -/
def daily_agg {α : Type} (series : List (Int × Option α)) : Int → Option α :=
  series.foldl daily_step (fun _ => none)

/-- A decoded integer-series entry as the aggregation loop sees it:
`JVal.null` is Python `None` (absent); any other value is kept as is. -/
def intEntry (p : Int × JVal) : Int × Option JVal :=
  (p.1, match p.2 with | JVal.null => none | v => some v)

/-- Days touched by a decoded series (`daily[day]` is read for every entry,
so the defaultdict gains a key for every entry's day). -/
def seriesDays {β : Type} (s : List (Int × β)) : List Int :=
  s.map (fun p => dayOf p.1)

/-- The key set of the `daily` dict, as `sorted(daily.items())` iterates it:
every day touched by any of the four series, deduplicated, ascending. -/
def coldDays (bb np : List (Int × Option ℚ)) (rk sc : List (Int × JVal)) :
    List Int :=
  List.insertionSort (· ≤ ·)
    ((seriesDays bb ++ seriesDays np ++ seriesDays rk ++ seriesDays sc).dedup)

/-- A row of the `history` table as the ingestion core produces it.
`rank`/`seller_count` hold raw decoded values (`JVal`), since the in-effect
integer decoder passes non-numeric values through verbatim. -/
structure HistRow where
  asin : String
  captured_at : Int
  buybox_price : Option ℚ
  new_price : Option ℚ
  rank : Option JVal
  seller_count : Option JVal
  stock : Option Int
  is_amazon_selling : Bool
deriving DecidableEq, Repr

/-- The COLD-path bulk rows (src/app.py lines 477-491): one row per day of
the aggregated mapping, timestamped at that day's midnight
(`datetime.combine(day, datetime.min.time())`), stock `None`. -/
def cold_bulk_rows (a : String) (isAmazon : Bool)
    (bb np : List (Int × Option ℚ)) (rk sc : List (Int × JVal)) : List HistRow :=
  (coldDays bb np rk sc).map (fun day =>
    { asin := a
      captured_at := day * 1440
      buybox_price := daily_agg bb day
      new_price := daily_agg np day
      rank := daily_agg (rk.map intEntry) day
      seller_count := daily_agg (sc.map intEntry) day
      stock := none
      is_amazon_selling := isAmazon })

/-! ### WARM-path latest-value extraction (src/app.py lines 280-308) -/

/-- The list comprehension of the two price blocks: values at odd indices
(`range(1, len(arr), 2)`) kept when `not in (-1, 0) and < 1000000`.  A
`None` or non-numeric element at a value slot makes the `<` comparison
raise (the `in` test is a mere equality test and does not). -/
def warm_price_vals : List JVal → Except Unit (List Int)
  | _ :: v :: rest =>
      match v with
      | JVal.int n =>
          (warm_price_vals rest).map
            (fun tail => if n ≠ -1 ∧ n ≠ 0 ∧ n < 1000000 then n :: tail else tail)
      | _ => Except.error ()
  | _ => Except.ok []

/-- The latest price of a raw column (src/app.py lines 281-294): `None`
unless the column has at least two elements and a value survives the
filter, else the last surviving value divided by 100. -/
def warm_price (arr : List JVal) : Except Unit (Option ℚ) :=
  if arr.length < 2 then Except.ok none
  else (warm_price_vals arr).map
    (fun prices => prices.getLast?.map (fun p => (p : ℚ) / 100))

/-- The latest rank / seller count of a raw column (src/app.py lines
296-308): `vals = [v for v in arr if v != -1]; vals[-1] if vals`.  Note the
comprehension ranges over the WHOLE interleaved array, timestamps included.
A final `None` element collapses to the initial `None`. -/
def warm_latest_int (arr : List JVal) : Option JVal :=
  match (arr.filter (fun v => v ≠ JVal.int (-1))).getLast? with
  | none => none
  | some JVal.null => none
  | some v => some v

/-- `stats.stockAmazon`, kept unless missing or `-1` (src/app.py 313-316). -/
def stockOf : Option Int → Option Int
  | some n => if n = -1 then none else some n
  | none => none

/-! ### History insertion (src/app.py lines 493-510)

Modelled from the spec: the `history` table's schema is not part of the
source tree; §3 of the spec states a uniqueness constraint on
(item, capture instant) "enforced ... at insertion".  Under that
constraint, the COLD path's `INSERT ... ON CONFLICT DO NOTHING` skips a
conflicting row, while the WARM path's plain `INSERT` (no conflict clause)
raises on a conflicting row. -/

abbrev History := List HistRow

/-- Whether the table already holds a row with this (item, instant) key. -/
def hasKey (h : History) (a : String) (t : Int) : Bool :=
  h.any (fun x => x.asin == a && x.captured_at == t)

/-- `INSERT ... ON CONFLICT DO NOTHING` of one row. -/
def insertIgnore (h : History) (r : HistRow) : History :=
  if hasKey h r.asin r.captured_at then h else h ++ [r]

/-- The COLD-path bulk insert (`execute_values`, lines 493-498). -/
def bulkInsertIgnore (h : History) (rows : List HistRow) : History :=
  rows.foldl insertIgnore h

/-- The WARM-path plain `INSERT` (lines 506-510): no conflict clause, so a
duplicate (item, instant) key raises. -/
def insertStrict (h : History) (r : HistRow) : Except Unit History :=
  if hasKey h r.asin r.captured_at then Except.error () else Except.ok (h ++ [r])

/-- `SELECT COUNT(*) FROM history WHERE asin = %s` (lines 369-370). -/
def historyCount (h : History) (a : String) : Nat :=
  (h.filter (fun x => x.asin == a)).length

/-! ### Per-item reconciliation (src/app.py lines 273-512) -/

/-- A raw column of the `csv` payload: missing index, JSON `null` and the
empty array are all falsy and all decode as the empty array. -/
def csvCol (csv : List (List JVal)) (i : Nat) : List JVal := csv.getD i []

/-- What the per-item branch produces: a bulk backfill or one appended
snapshot. -/
inductive ItemAction : Type
  | cold (rows : List HistRow)
  | warm (row : HistRow)
deriving DecidableEq, Repr

/-- `true` on the COLD (backfill) branch. -/
def pathIsCold : ItemAction → Bool
  | ItemAction.cold _ => true
  | ItemAction.warm _ => false

/-- Per-item processing: the latest-value extraction runs first for every
product (lines 280-308); then `history_count < 30` selects the COLD
backfill (cutoff 180 days before now) or the WARM single append timestamped
now (the database fills `captured_at` with the insertion instant). -/
def syncItem (now : Int) (a : String) (csv : List (List JVal))
    (stockAmazon : Option Int) (isAmazon : Bool) (history_count : Nat) :
    Except Unit ItemAction :=
  match warm_price (csvCol csv 18) with
  | Except.error e => Except.error e
  | Except.ok buybox_price =>
    match warm_price (csvCol csv 1) with
    | Except.error e => Except.error e
    | Except.ok new_price =>
      if history_count < 30 then
        match extract_keepa_int_series (now - 180 * 1440) (csvCol csv 3) with
        | Except.error e => Except.error e
        | Except.ok rk =>
          match extract_keepa_int_series (now - 180 * 1440) (csvCol csv 11) with
          | Except.error e => Except.error e
          | Except.ok sc =>
            Except.ok (ItemAction.cold (cold_bulk_rows a isAmazon
              (extract_keepa_series (now - 180 * 1440) (csvCol csv 18))
              (extract_keepa_series (now - 180 * 1440) (csvCol csv 1)) rk sc))
      else
        Except.ok (ItemAction.warm
          { asin := a
            captured_at := now
            buybox_price := buybox_price
            new_price := new_price
            rank := warm_latest_int (csvCol csv 3)
            seller_count := warm_latest_int (csvCol csv 11)
            stock := stockOf stockAmazon
            is_amazon_selling := isAmazon })

/-- Apply a per-item action to the table: the COLD bulk insert ignores
conflicts; the WARM append does not. -/
def applyAction (h : History) (act : ItemAction) : Except Unit History :=
  match act with
  | ItemAction.cold rows => Except.ok (bulkInsertIgnore h rows)
  | ItemAction.warm row => insertStrict h row

/-! ### The sync invocation (src/app.py lines 229-525) -/

/-- One product object of a Keepa batch response. -/
structure KeepaProduct where
  asin : Option String
  csv : List (List JVal)
  stockAmazon : Option Int
  isAmazon : Bool

/-- What one batch request yields: a network/JSON failure, a body without
a `products` key, or a product list. -/
inductive BatchResp : Type
  | fail
  | noProducts
  | ok (products : List KeepaProduct)

/-- The per-product loop of one batch (lines 273-512).  Returns the
history as written so far, the `updated` counter and whether the loop
completed; on an exception the caller discards the uncommitted history but
keeps the counter increments already made (`updated` is a plain Python
variable, not part of the transaction). -/
def processProducts (now : Int) :
    List KeepaProduct → History → Nat → History × Nat × Bool
  | [], h, upd => (h, upd, true)
  | p :: rest, h, upd =>
      match p.asin with
      | none => processProducts now rest h upd
      | some a =>
          match (syncItem now a p.csv p.stockAmazon p.isAmazon
              (historyCount h a)).bind (applyAction h) with
          | Except.error _ => (h, upd, false)
          | Except.ok h2 => processProducts now rest h2 (upd + 1)

/-- One batch (lines 248-519): a fetch failure or a missing `products` key
appends one error; otherwise the product loop runs inside one transaction,
committed only when it completes. -/
def processBatch (now : Int) (h : History) (resp : BatchResp)
    (upd errs : Nat) : History × Nat × Nat :=
  match resp with
  | BatchResp.fail => (h, upd, errs + 1)
  | BatchResp.noProducts => (h, upd, errs + 1)
  | BatchResp.ok products =>
      match processProducts now products h upd with
      | (h2, upd2, true) => (h2, upd2, errs)
      | (_, upd2, false) => (h, upd2, errs + 1)

/-- `range(0, len(asins), batch_size)` with `batch_size = 10`. -/
def chunksAux : Nat → List String → List (List String)
  | 0, _ => []
  | _, [] => []
  | Nat.succ fuel, l => l.take 10 :: chunksAux fuel (l.drop 10)

/-- The batches of at most 10 identifiers the sync loop issues. -/
def chunks10 (l : List String) : List (List String) := chunksAux l.length l

/-- The sequential batch loop; `i` numbers the fetches performed. -/
def syncBatches (now : Int) (fetch : Nat → BatchResp) :
    List (List String) → History → Nat → Nat → Nat → History × Nat × Nat × Nat
  | [], h, i, upd, errs => (h, upd, errs, i)
  | _ :: rest, h, i, upd, errs =>
      match processBatch now h (fetch i) upd errs with
      | (h2, upd2, errs2) => syncBatches now fetch rest h2 (i + 1) upd2 errs2

/-- `SELECT value FROM settings WHERE key = %s` with `fetchone` (lines
68-74): the first row holding the key (the table's key is unique). -/
def get_setting : List (String × String) → String → Option String
  | [], _ => none
  | p :: rest, key => if p.1 = key then some p.2 else get_setting rest key

/-- Python truthiness of the credential: `None` and the empty string are
falsy. -/
def pyTruthy : Option String → Bool
  | none => false
  | some s => s ≠ ""

/-- What a sync invocation reports. -/
inductive SyncResult : Type
  | configError
  | noAsins
  | summary (updated : Nat) (errorCount : Nat)
deriving DecidableEq, Repr

/-- A sync invocation's observable outcome: the response, the history
table afterwards, and how many batch fetches were issued. -/
structure SyncOutcome where
  result : SyncResult
  history : History
  batchesFetched : Nat
deriving DecidableEq, Repr

/-- `sync_keepa` (src/app.py lines 229-525): the credential check comes
first and returns before any batch; then the active identifiers are
batched by 10 and processed sequentially, each batch fetched once. -/
def sync_keepa (now : Int) (settings : List (String × String))
    (asins : List String) (fetch : Nat → BatchResp) (h : History) :
    SyncOutcome :=
  if ¬ pyTruthy (get_setting settings "keepa_api_key") then
    { result := SyncResult.configError, history := h, batchesFetched := 0 }
  else if asins.isEmpty then
    { result := SyncResult.noAsins, history := h, batchesFetched := 0 }
  else
    match syncBatches now fetch (chunks10 asins) h 0 0 0 with
    | (h2, upd, errs, fc) =>
        { result := SyncResult.summary upd errs, history := h2
          batchesFetched := fc }

/-! ### Settings routes (src/app.py lines 193-222) -/

/-- `GET /settings` (lines 193-200): every row whose key is not
`keepa_api_key`. -/
def get_settings (db : List (String × String)) : List (String × String) :=
  db.filter (fun p => p.1 ≠ "keepa_api_key")

/-- `INSERT ... ON CONFLICT (key) DO UPDATE SET value = EXCLUDED.value`
over the unique-keyed settings table: update the row holding the key when
one exists, append otherwise. -/
def upsert : List (String × String) → String → String → List (String × String)
  | [], k, v => [(k, v)]
  | p :: rest, k, v => if p.1 = k then (k, v) :: rest else p :: upsert rest k v

/-- `POST /settings` (lines 203-222): upsert every submitted pair except
`keepa_api_key`, which is skipped. -/
def save_settings (db : List (String × String))
    (payload : List (String × String)) : List (String × String) :=
  payload.foldl
    (fun d p => if p.1 = "keepa_api_key" then d else upsert d p.1 p.2) db

/-! ### Delta endpoints (src/app.py lines 531-600 and 618-668) -/

/-- A history row as the delta queries read it; metric values over `ℚ`
(`float(·)` is applied before subtracting). -/
structure Snap where
  captured_at : Int
  buybox_price : Option ℚ
  new_price : Option ℚ
  rank : Option ℚ
  seller_count : Option ℚ
deriving DecidableEq, Repr

/-- The later-instant of an accumulator and a row, keeping the earlier-seen
row on ties (instants are unique per item by the schema's constraint). -/
def laterOf (acc : Option Snap) (s : Snap) : Option Snap :=
  match acc with
  | none => some s
  | some b => if b.captured_at < s.captured_at then some s else acc

/-- `ORDER BY captured_at DESC LIMIT 1` over rows with
`captured_at <= cutoff`. -/
def latestAtOrBefore (hist : List Snap) (cutoff : Int) : Option Snap :=
  (hist.filter (fun s => s.captured_at ≤ cutoff)).foldl laterOf none

/-- `get_closest(days_back)` of `GET /deltas/<asin>` (lines 626-635):
cutoff is `now - timedelta(days=days_back)`. -/
def get_closest (hist : List Snap) (now days_back : Int) : Option Snap :=
  latestAtOrBefore hist (now - days_back * 1440)

/-- The `delta` helper (lines 642-649 and 564-571): `None` when either row
is missing or either field is `None`, else the signed difference. -/
def delta (c p : Option Snap) (f : Snap → Option ℚ) : Option ℚ :=
  match c, p with
  | some cr, some pr =>
      match f cr, f pr with
      | some cv, some pv => some (cv - pv)
      | _, _ => none
  | _, _ => none

/-- The twelve named delta fields of either endpoint's response. -/
structure Deltas where
  price_delta_30 : Option ℚ
  price_delta_90 : Option ℚ
  price_delta_180 : Option ℚ
  new_price_delta_30 : Option ℚ
  new_price_delta_90 : Option ℚ
  new_price_delta_180 : Option ℚ
  rank_delta_30 : Option ℚ
  rank_delta_90 : Option ℚ
  rank_delta_180 : Option ℚ
  seller_delta_30 : Option ℚ
  seller_delta_90 : Option ℚ
  seller_delta_180 : Option ℚ
deriving DecidableEq, Repr

/-- The twelve `none`-valued deltas. -/
def noDeltas : Deltas :=
  { price_delta_30 := none
    price_delta_90 := none
    price_delta_180 := none
    new_price_delta_30 := none
    new_price_delta_90 := none
    new_price_delta_180 := none
    rank_delta_30 := none
    rank_delta_90 := none
    rank_delta_180 := none
    seller_delta_30 := none
    seller_delta_90 := none
    seller_delta_180 := none }

/-- The response body built from the current and the three reference
snapshots (lines 651-665 and 579-593). -/
def mkDeltas (current p30 p90 p180 : Option Snap) : Deltas :=
  { price_delta_30 := delta current p30 Snap.buybox_price
    price_delta_90 := delta current p90 Snap.buybox_price
    price_delta_180 := delta current p180 Snap.buybox_price
    new_price_delta_30 := delta current p30 Snap.new_price
    new_price_delta_90 := delta current p90 Snap.new_price
    new_price_delta_180 := delta current p180 Snap.new_price
    rank_delta_30 := delta current p30 Snap.rank
    rank_delta_90 := delta current p90 Snap.rank
    rank_delta_180 := delta current p180 Snap.rank
    seller_delta_30 := delta current p30 Snap.seller_count
    seller_delta_90 := delta current p90 Snap.seller_count
    seller_delta_180 := delta current p180 Snap.seller_count }

/-- `GET /deltas/<asin>` (lines 618-668) over the item's history rows. -/
def get_deltas (now : Int) (hist : List Snap) : Deltas :=
  mkDeltas (get_closest hist now 0) (get_closest hist now 30)
    (get_closest hist now 90) (get_closest hist now 180)

/-- The rows of one item inside the joint history table. -/
def histOf (h : List (String × Snap)) (a : String) : List Snap :=
  (h.filter (fun p => p.1 == a)).map (fun p => p.2)

/-- `get_snapshots(days_back)` of `GET /deltas` (lines 546-557): the
`SELECT DISTINCT ON (asin) ... ORDER BY asin, captured_at DESC` dictionary,
read at one identifier (`.get` yields `None` for an absent key). -/
def bulk_snapshot (h : List (String × Snap)) (now days_back : Int) :
    String → Option Snap :=
  fun a => latestAtOrBefore (histOf h a) (now - days_back * 1440)

/-- `GET /deltas` (lines 531-600): the four snapshot dictionaries are
built once, then each active identifier's twelve deltas are assembled. -/
def get_all_deltas (now : Int) (asins : List String)
    (h : List (String × Snap)) : List (String × Deltas) :=
  let current := bulk_snapshot h now 0
  let p30 := bulk_snapshot h now 30
  let p90 := bulk_snapshot h now 90
  let p180 := bulk_snapshot h now 180
  asins.map (fun a => (a, mkDeltas (current a) (p30 a) (p90 a) (p180 a)))

/-! ### Specification-side helpers used to characterize the code -/

/-- The first non-`none` element of a list of optional values. -/
def firstSome {α : Type} (l : List (Option α)) : Option α :=
  (l.filterMap id).head?

/-- The value positions (odd indices) of an interleaved
`[t0, v0, t1, v1, ...]` array. -/
def valueSlots : List JVal → List JVal
  | _ :: v :: rest => v :: valueSlots rest
  | _ => []

/-- Follows the spec's words (§4.3, WARM): "decode only the *latest* value
per metric (last non-absent entry in the raw series)" — the last
value-position entry that is not the sentinel -1. -/
def spec_latest_int_value (arr : List JVal) : Option JVal :=
  ((valueSlots arr).filter (fun v => v ≠ JVal.int (-1))).getLast?

/-- A concrete snapshot row used by closed counterexamples. -/
def sampleRow : HistRow :=
  { asin := "A"
    captured_at := 0
    buybox_price := none
    new_price := none
    rank := none
    seller_count := none
    stock := none
    is_amazon_selling := false }

/-! ## Theorems -/

/-- C1, counterexample: in the backfill decoder a raw value of exactly
1,000,000 (hundredths) does NOT decode to absent — the filter is strictly
greater-than — so it converts to the numeric value 10,000.00. -/
theorem backfill_converts_exact_million :
    extract_keepa_series 0 [JVal.int 0, JVal.int 1000000]
      = [((0 : Int), some (10000 : ℚ))] := by
  simp [extract_keepa_series, pricePairs, pricePairStep]
  norm_num

/-- C2: the integer decoder actually in effect (the second, shadowing
`extract_keepa_int_series`) does not skip malformed pairs individually: a
non-numeric timestamp aborts the whole decode, losing the well-formed
remainder, and a non-numeric value is passed through verbatim rather than
skipped; the price decoder, by contrast, skips the malformed pair and
yields the remainder. -/
theorem int_decoder_aborts_on_malformed :
    extract_keepa_int_series 0 [JVal.nonnum, JVal.int 5, JVal.int 1440, JVal.int 7]
        = Except.error ()
    ∧ extract_keepa_int_series 0 [JVal.int 0, JVal.nonnum, JVal.int 1440, JVal.int 7]
        = Except.ok [((0 : Int), JVal.nonnum), ((1440 : Int), JVal.int 7)]
    ∧ extract_keepa_series 0 [JVal.nonnum, JVal.int 5, JVal.int 1440, JVal.int 7]
        = [((1440 : Int), some ((7 : ℚ) / 100))] :=
  ⟨rfl, rfl, rfl⟩

/-- C3, counterexample: when the earlier entry of a day carries an absent
value, the daily aggregation does NOT discard the later entry — the
`is None` guard lets the later value overwrite the absent one. -/
theorem daily_agg_overwrites_absent :
    daily_agg [((0 : Int), (none : Option Int)), ((10 : Int), some 5)] 0 = some 5 := by
  decide

/-- C4: on the WARM path the rank extraction filters `-1` over the WHOLE
interleaved array, timestamps included; when the series' final value is the
sentinel, the extracted "latest rank" is the trailing timestamp (200), not
the last non-absent rank value (50) that the spec's words describe. -/
theorem warm_rank_takes_trailing_timestamp :
    warm_latest_int [JVal.int 100, JVal.int 50, JVal.int 200, JVal.int (-1)]
        = some (JVal.int 200)
    ∧ spec_latest_int_value [JVal.int 100, JVal.int 50, JVal.int 200, JVal.int (-1)]
        = some (JVal.int 50) :=
  ⟨rfl, rfl⟩

/-- C6, counterexample: the WARM-path single append has no conflict
clause; inserting a row whose (item, capture instant) key already exists
raises instead of being silently dropped. -/
theorem warm_append_conflict_raises :
    applyAction [sampleRow] (ItemAction.warm sampleRow) = Except.error () :=
  rfl

/-- C6, amended: the COLD-path bulk insert never errors and silently drops
a duplicate-key row, while the WARM-path append errors exactly on a
duplicate-key row (and inserts it otherwise). -/
theorem insert_conflict_semantics (h : History) (r : HistRow) (rows : List HistRow) :
    (applyAction h (ItemAction.cold rows) = Except.ok (bulkInsertIgnore h rows))
    ∧ (hasKey h r.asin r.captured_at = true →
        insertIgnore h r = h ∧ applyAction h (ItemAction.warm r) = Except.error ())
    ∧ (hasKey h r.asin r.captured_at = false →
        insertIgnore h r = h ++ [r]
        ∧ applyAction h (ItemAction.warm r) = Except.ok (h ++ [r])) := by
  refine ⟨rfl, fun hk => ?_, fun hk => ?_⟩ <;>
    simp [applyAction, insertIgnore, insertStrict, hk]

/-- C9: with no usable credential (`None` or the empty string, both falsy)
the sync invocation reports the configuration error at once: no batch is
fetched and the stored history is untouched. -/
theorem sync_config_missing (now : Int) (settings : List (String × String))
    (asins : List String) (fetch : Nat → BatchResp) (h : History)
    (hk : pyTruthy (get_setting settings "keepa_api_key") = false) :
    sync_keepa now settings asins fetch h =
      { result := SyncResult.configError, history := h, batchesFetched := 0 } := by
  simp [sync_keepa, hk]

/-- C9, witness: a concrete invocation with no credential row at all. -/
theorem sync_config_missing_witness :
    sync_keepa 0 [] ["A"] (fun _ => BatchResp.fail) [] =
      { result := SyncResult.configError, history := [], batchesFetched := 0 } :=
  sync_config_missing 0 [] ["A"] (fun _ => BatchResp.fail) [] rfl

/-- Soundness of one decoded price pair: the instant is at or after the
cutoff, and a non-absent value is `w / 100` for a raw `w` that is neither
sentinel nor strictly above 1,000,000. -/
theorem pricePairStep_sound (cutoff : Int) (ts v : JVal) (p : Int × Option ℚ)
    (h : pricePairStep cutoff ts v = some p) :
    cutoff ≤ p.1 ∧ ∀ q, p.2 = some q →
      ∃ w : Int, q = (w : ℚ) / 100 ∧ w ≠ -1 ∧ w ≠ 0 ∧ w ≤ 1000000 := by
  cases ts with
  | null => simp [pricePairStep] at h
  | nonnum => cases v <;> simp [pricePairStep] at h
  | int t =>
    cases v with
    | null => simp [pricePairStep] at h
    | nonnum => simp [pricePairStep] at h
    | int n =>
      simp only [pricePairStep] at h
      split_ifs at h with h1 h2
      · simp only [Option.some.injEq] at h
        subst h
        refine ⟨by omega, ?_⟩
        intro q hq
        simp at hq
      · simp only [Option.some.injEq] at h
        subst h
        refine ⟨by omega, ?_⟩
        intro q hq
        simp only [Option.some.injEq] at hq
        subst hq
        push_neg at h2
        exact ⟨n, rfl, h2.1, h2.2.1, by omega⟩

/-- Soundness of the whole price-pair loop, by membership. -/
theorem pricePairs_sound (cutoff : Int) :
    ∀ (arr : List JVal) (t' : Int) (ov : Option ℚ),
      (t', ov) ∈ pricePairs cutoff arr →
      cutoff ≤ t' ∧ ∀ q, ov = some q →
        ∃ w : Int, q = (w : ℚ) / 100 ∧ w ≠ -1 ∧ w ≠ 0 ∧ w ≤ 1000000
  | [], _, _, h => by simp [pricePairs] at h
  | [_], _, _, h => by simp [pricePairs] at h
  | ts :: v :: rest, t', ov, h => by
      cases hs : pricePairStep cutoff ts v with
      | none =>
          rw [pricePairs, hs] at h
          exact pricePairs_sound cutoff rest t' ov h
      | some p =>
          rw [pricePairs, hs] at h
          rcases List.mem_cons.mp h with heq | hmem
          · rw [← heq] at hs
            exact pricePairStep_sound cutoff ts v (t', ov) hs
          · exact pricePairs_sound cutoff rest t' ov hmem

/-- Soundness of the WARM-path price filter: every surviving raw value is
neither sentinel nor at or above 1,000,000. -/
theorem warm_price_vals_sound :
    ∀ (arr : List JVal) (res : List Int), warm_price_vals arr = Except.ok res →
      ∀ w ∈ res, w ≠ -1 ∧ w ≠ 0 ∧ w < 1000000
  | [], res, h => by
      simp only [warm_price_vals, Except.ok.injEq] at h
      subst h; simp
  | [_], res, h => by
      simp only [warm_price_vals, Except.ok.injEq] at h
      subst h; simp
  | _ :: v :: rest, res, h => by
      cases v with
      | null => exact Except.noConfusion h
      | nonnum => exact Except.noConfusion h
      | int n =>
          rw [warm_price_vals] at h
          cases hr : warm_price_vals rest with
          | error e => rw [hr] at h; simp [Except.map] at h
          | ok tail =>
              rw [hr] at h
              simp only [Except.map, Except.ok.injEq] at h
              subst h
              intro w hw
              split_ifs at hw with hc
              · rcases List.mem_cons.mp hw with rfl | hmem
                · exact hc
                · exact warm_price_vals_sound rest tail hr w hmem
              · exact warm_price_vals_sound rest tail hr w hw

/-- C1, amended: in the backfill decoder the sentinel set is `-1`, `0` and
values STRICTLY above 1,000,000 (a raw value of exactly 1,000,000 converts
to 10,000.00); every other in-window value decodes to value/100, and no
decoded numeric value ever comes from a sentinel.  The WARM-path
latest-value filter instead excludes `-1`, `0` and every value at or above
1,000,000. -/
theorem price_sentinel_rules (cutoff t v : Int) (arr : List JVal) :
    (extract_keepa_series cutoff [JVal.int t, JVal.int v] =
      if t < cutoff then []
      else if v = -1 ∨ v = 0 ∨ 1000000 < v then [(t, (none : Option ℚ))]
      else [(t, some ((v : ℚ) / 100))])
    ∧ (∀ t' ov, (t', ov) ∈ extract_keepa_series cutoff arr →
        cutoff ≤ t' ∧ ∀ q, ov = some q →
          ∃ w : Int, q = (w : ℚ) / 100 ∧ w ≠ -1 ∧ w ≠ 0 ∧ w ≤ 1000000)
    ∧ (warm_price [JVal.int t, JVal.int v] =
        Except.ok (if v ≠ -1 ∧ v ≠ 0 ∧ v < 1000000
          then some ((v : ℚ) / 100) else none))
    ∧ (∀ res, warm_price_vals arr = Except.ok res →
        ∀ w ∈ res, w ≠ -1 ∧ w ≠ 0 ∧ w < 1000000) := by
  refine ⟨?_, ?_, ?_, warm_price_vals_sound arr⟩
  · simp only [extract_keepa_series, List.length_cons, List.length_nil]
    norm_num
    rw [pricePairs]
    simp only [pricePairStep, pricePairs]
    split_ifs <;> simp
  · intro t' ov hmem
    unfold extract_keepa_series at hmem
    split_ifs at hmem with hlen
    · simp at hmem
    · exact pricePairs_sound cutoff arr t' ov hmem
  · simp only [warm_price, List.length_cons, List.length_nil]
    norm_num
    rw [warm_price_vals]
    simp only [warm_price_vals, Except.map]
    split_ifs <;> simp

/-- The key lemma for the daily aggregation: folding a series into a
day-indexed dictionary leaves, at each day already holding a value, that
value, and at an unset day the FIRST NON-ABSENT value of that day in
sequence order. -/
theorem daily_fold_at {α : Type} :
    ∀ (series : List (Int × Option α)) (m : Int → Option α) (d : Int),
      series.foldl daily_step m d =
        (m d).elim
          (firstSome ((series.filter (fun p => dayOf p.1 == d)).map (fun p => p.2)))
          some
  | [], m, d => by cases hm : m d <;> simp [firstSome, hm]
  | p :: rest, m, d => by
      show (rest.foldl daily_step (daily_step m p)) d = _
      by_cases hd : dayOf p.1 = d
      · cases hm : m d with
        | some w =>
            have hstep : daily_step m p = m := by
              simp only [daily_step, hd, hm]
            rw [hstep, daily_fold_at rest m d, hm]
            simp
        | none =>
            have hm1 : m (dayOf p.1) = none := by rw [hd]; exact hm
            have hstep : daily_step m p = dict_set m (dayOf p.1) p.2 := by
              simp only [daily_step, hm1]
            have hset : dict_set m (dayOf p.1) p.2 d = p.2 := by
              simp [dict_set, hd]
            have hf : (p :: rest).filter (fun q => dayOf q.1 == d)
                = p :: rest.filter (fun q => dayOf q.1 == d) := by
              simp [List.filter_cons, hd]
            rw [hstep, daily_fold_at rest (dict_set m (dayOf p.1) p.2) d, hset, hf]
            cases hp2 : p.2 with
            | some v => simp [firstSome, hp2]
            | none => simp [firstSome, hp2]
      · have hfilter :
            (p :: rest).filter (fun q => dayOf q.1 == d)
              = rest.filter (fun q => dayOf q.1 == d) := by
          simp [List.filter_cons, hd]
        rw [hfilter]
        cases hm' : m (dayOf p.1) with
        | some w =>
            have hstep : daily_step m p = m := by simp only [daily_step, hm']
            rw [hstep, daily_fold_at rest m d]
        | none =>
            have hstep : daily_step m p = dict_set m (dayOf p.1) p.2 := by
              simp only [daily_step, hm']
            rw [hstep, daily_fold_at rest (dict_set m (dayOf p.1) p.2) d]
            have hset : dict_set m (dayOf p.1) p.2 d = m d := by
              simp only [dict_set]
              rw [if_neg (fun hc => hd (hc.symm))]
            rw [hset]

/-- C5: the reconciliation path is a pure function of the persisted
snapshot count — whenever per-item processing succeeds, the action is COLD
exactly when the count is below 30, the COLD action carries the bulk rows
of the 180-day decode-and-aggregate pipeline, and the WARM action carries
exactly one snapshot timestamped now; nothing but the count picks the
branch. -/
theorem syncItem_branch_by_count (now : Int) (a : String) (csv : List (List JVal))
    (st : Option Int) (amz : Bool) (n : Nat) (r : ItemAction)
    (h : syncItem now a csv st amz n = Except.ok r) :
    pathIsCold r = decide (n < 30)
    ∧ (n < 30 → ∃ rk sc,
        extract_keepa_int_series (now - 180 * 1440) (csvCol csv 3) = Except.ok rk
        ∧ extract_keepa_int_series (now - 180 * 1440) (csvCol csv 11) = Except.ok sc
        ∧ r = ItemAction.cold (cold_bulk_rows a amz
            (extract_keepa_series (now - 180 * 1440) (csvCol csv 18))
            (extract_keepa_series (now - 180 * 1440) (csvCol csv 1)) rk sc))
    ∧ (30 ≤ n → ∃ bp np2,
        warm_price (csvCol csv 18) = Except.ok bp
        ∧ warm_price (csvCol csv 1) = Except.ok np2
        ∧ r = ItemAction.warm
            { asin := a
              captured_at := now
              buybox_price := bp
              new_price := np2
              rank := warm_latest_int (csvCol csv 3)
              seller_count := warm_latest_int (csvCol csv 11)
              stock := stockOf st
              is_amazon_selling := amz }) := by
  unfold syncItem at h
  split at h
  · exact Except.noConfusion h
  · rename_i bp h18
    split at h
    · exact Except.noConfusion h
    · rename_i np2 h1
      split at h
      · rename_i hn
        split at h
        · exact Except.noConfusion h
        · rename_i rk h3
          split at h
          · exact Except.noConfusion h
          · rename_i sc h11
            simp only [Except.ok.injEq] at h
            subst h
            exact ⟨by simp [pathIsCold, hn], fun _ => ⟨rk, sc, h3, h11, rfl⟩,
              fun hge => absurd hn (by omega)⟩
      · rename_i hn
        simp only [Except.ok.injEq] at h
        subst h
        exact ⟨by simp [pathIsCold, hn], fun hlt => absurd hlt hn,
          fun _ => ⟨bp, np2, h18, h1, rfl⟩⟩

/-- C5, witness: an item with no history and an empty payload takes the
COLD branch. -/
theorem syncItem_branch_witness :
    pathIsCold (ItemAction.cold []) = decide ((0 : Nat) < 30) :=
  (syncItem_branch_by_count 0 "A" [] none false 0 (ItemAction.cold []) rfl).1

/-- C3, amended: per metric and calendar day, the aggregation retains the
first NON-ABSENT value of the day in sequence order (and `None` when every
value that day is absent); in particular an earlier non-absent value is
kept and all later values of the day are discarded regardless of
magnitude, but an earlier absent value is overwritten by a later one. -/
theorem daily_agg_first_nonabsent {α : Type} (series : List (Int × Option α)) (d : Int) :
    daily_agg series d =
      firstSome ((series.filter (fun p => dayOf p.1 == d)).map (fun p => p.2)) := by
  have h := daily_fold_at series (fun _ => none) d
  simpa [daily_agg] using h

/-- Appending one row adds exactly its key to the key test. -/
theorem hasKey_append (h : History) (r : HistRow) (a : String) (t : Int) :
    hasKey (h ++ [r]) a t
      = (hasKey h a t || (r.asin == a && r.captured_at == t)) := by
  simp [hasKey]

/-- After a conflict-ignoring insert the inserted row's key is present. -/
theorem hasKey_insertIgnore_self (h : History) (r : HistRow) :
    hasKey (insertIgnore h r) r.asin r.captured_at = true := by
  unfold insertIgnore
  split_ifs with hk
  · exact hk
  · simp [hasKey_append]

/-- A present key stays present through a conflict-ignoring insert. -/
theorem hasKey_insertIgnore_mono (h : History) (r : HistRow) (a : String)
    (t : Int) (hk : hasKey h a t = true) :
    hasKey (insertIgnore h r) a t = true := by
  unfold insertIgnore
  split_ifs
  · exact hk
  · simp [hasKey_append, hk]

/-- A present key stays present through a whole bulk insert. -/
theorem hasKey_bulk_mono :
    ∀ (rows : List HistRow) (h : History) (a : String) (t : Int),
      hasKey h a t = true → hasKey (bulkInsertIgnore h rows) a t = true
  | [], _, _, _, hk => hk
  | r :: rest, h, a, t, hk =>
      hasKey_bulk_mono rest (insertIgnore h r) a t
        (hasKey_insertIgnore_mono h r a t hk)

/-- Every bulk-inserted row's key is present afterwards. -/
theorem hasKey_bulk_mem :
    ∀ (rows : List HistRow) (h : History) (r : HistRow), r ∈ rows →
      hasKey (bulkInsertIgnore h rows) r.asin r.captured_at = true
  | [], _, _, hr => absurd hr (List.not_mem_nil _)
  | r0 :: rest, h, r, hr => by
      rcases List.mem_cons.mp hr with rfl | hr2
      · exact hasKey_bulk_mono rest (insertIgnore h r) _ _
          (hasKey_insertIgnore_self h r)
      · exact hasKey_bulk_mem rest (insertIgnore h r0) r hr2

/-- A bulk insert whose every row's key is already present does nothing. -/
theorem bulkInsertIgnore_noop :
    ∀ (rows : List HistRow) (h : History),
      (∀ r ∈ rows, hasKey h r.asin r.captured_at = true) →
      bulkInsertIgnore h rows = h
  | [], _, _ => rfl
  | r :: rest, h, hall => by
      have h1 : insertIgnore h r = h := by
        unfold insertIgnore
        simp [hall r (List.mem_cons_self r rest)]
      show bulkInsertIgnore (insertIgnore h r) rest = h
      rw [h1]
      exact bulkInsertIgnore_noop rest h
        (fun x hx => hall x (List.mem_cons_of_mem _ hx))

/-- A bulk insert of rows with pairwise-distinct keys, none present yet,
appends them all. -/
theorem bulkInsertIgnore_fresh :
    ∀ (rows : List HistRow) (h : History),
      (rows.map (fun r => (r.asin, r.captured_at))).Nodup →
      (∀ r ∈ rows, hasKey h r.asin r.captured_at = false) →
      bulkInsertIgnore h rows = h ++ rows
  | [], h, _, _ => by simp [bulkInsertIgnore]
  | r :: rest, h, hnd, hfresh => by
      have h1 : insertIgnore h r = h ++ [r] := by
        unfold insertIgnore
        simp [hfresh r (List.mem_cons_self r rest)]
      have hnd2 := (List.nodup_cons.mp hnd).2
      have hne := (List.nodup_cons.mp hnd).1
      have hfresh2 : ∀ x ∈ rest, hasKey (h ++ [r]) x.asin x.captured_at = false := by
        intro x hx
        rw [hasKey_append]
        have hf := hfresh x (List.mem_cons_of_mem _ hx)
        cases hb : (r.asin == x.asin && r.captured_at == x.captured_at) with
        | false => simp [hf]
        | true =>
            simp only [Bool.and_eq_true, beq_iff_eq] at hb
            exact absurd (List.mem_map.mpr ⟨x, hx, by simp [hb.1, hb.2]⟩) hne
      show bulkInsertIgnore (insertIgnore h r) rest = h ++ r :: rest
      rw [h1, bulkInsertIgnore_fresh rest (h ++ [r]) hnd2 hfresh2]
      simp

/-- The ascending day list of the COLD aggregation has no duplicates. -/
theorem coldDays_nodup (bb np : List (Int × Option ℚ)) (rk sc : List (Int × JVal)) :
    (coldDays bb np rk sc).Nodup := by
  unfold coldDays
  exact ((List.perm_insertionSort _ _).nodup_iff).mpr (List.nodup_dedup _)

/-- The COLD bulk rows' capture instants are the day list at midnight. -/
theorem cold_bulk_rows_instants (a : String) (amz : Bool)
    (bb np : List (Int × Option ℚ)) (rk sc : List (Int × JVal)) :
    (cold_bulk_rows a amz bb np rk sc).map HistRow.captured_at
      = (coldDays bb np rk sc).map (fun d => d * 1440) := by
  unfold cold_bulk_rows
  rw [List.map_map]
  rfl

/-- The COLD bulk rows' (item, instant) keys are pairwise distinct. -/
theorem cold_bulk_rows_keys_nodup (a : String) (amz : Bool)
    (bb np : List (Int × Option ℚ)) (rk sc : List (Int × JVal)) :
    ((cold_bulk_rows a amz bb np rk sc).map
      (fun r => (r.asin, r.captured_at))).Nodup := by
  unfold cold_bulk_rows
  rw [List.map_map]
  have hinj : Function.Injective (fun d : Int => (a, d * 1440)) := by
    intro x y hxy
    simp only [Prod.mk.injEq] at hxy
    omega
  exact (coldDays_nodup bb np rk sc).map hinj

/-- C7: running the COLD backfill bulk insert twice with the same payload
against an initially empty history is idempotent — the first run stores
the rows themselves, one per distinct calendar day of the aggregated
mapping (instants pairwise distinct), and the second run inserts
nothing. -/
theorem cold_backfill_idempotent (a : String) (amz : Bool)
    (bb np : List (Int × Option ℚ)) (rk sc : List (Int × JVal)) :
    bulkInsertIgnore (bulkInsertIgnore [] (cold_bulk_rows a amz bb np rk sc))
        (cold_bulk_rows a amz bb np rk sc)
      = bulkInsertIgnore [] (cold_bulk_rows a amz bb np rk sc)
    ∧ bulkInsertIgnore [] (cold_bulk_rows a amz bb np rk sc)
        = cold_bulk_rows a amz bb np rk sc
    ∧ (cold_bulk_rows a amz bb np rk sc).map HistRow.captured_at
        = (coldDays bb np rk sc).map (fun d => d * 1440)
    ∧ ((cold_bulk_rows a amz bb np rk sc).map HistRow.captured_at).Nodup := by
  refine ⟨?_, ?_, cold_bulk_rows_instants a amz bb np rk sc, ?_⟩
  · exact bulkInsertIgnore_noop _ _
      (fun r hr => hasKey_bulk_mem _ [] r hr)
  · have h := bulkInsertIgnore_fresh (cold_bulk_rows a amz bb np rk sc) []
      (cold_bulk_rows_keys_nodup a amz bb np rk sc)
      (fun _ _ => rfl)
    simpa using h
  · rw [cold_bulk_rows_instants a amz bb np rk sc]
    have hinj : Function.Injective (fun d : Int => d * 1440) := by
      intro x y hxy
      have hxy2 : x * 1440 = y * 1440 := hxy
      omega
    exact (coldDays_nodup bb np rk sc).map hinj

/-- `laterOf` always yields a row no earlier than its input row, and no
earlier than the accumulator. -/
theorem laterOf_ge (acc : Option Snap) (x : Snap) :
    ∃ c, laterOf acc x = some c ∧ x.captured_at ≤ c.captured_at
      ∧ ∀ b, acc = some b → b.captured_at ≤ c.captured_at := by
  cases acc with
  | none =>
      exact ⟨x, rfl, le_refl _, fun b hb => Option.noConfusion hb⟩
  | some b =>
      simp only [laterOf]
      split_ifs with hlt
      · exact ⟨x, rfl, le_refl _, fun b2 hb2 => by
          simp only [Option.some.injEq] at hb2
          subst hb2
          omega⟩
      · exact ⟨b, rfl, by omega, fun b2 hb2 => by
          simp only [Option.some.injEq] at hb2
          subst hb2
          omega⟩

/-- The fold of `laterOf` picks an element of the list (or the
accumulator). -/
theorem foldl_laterOf_mem :
    ∀ (l : List Snap) (acc : Option Snap) (s : Snap),
      l.foldl laterOf acc = some s → s ∈ l ∨ acc = some s
  | [], _, _, h => Or.inr h
  | x :: rest, acc, s, h => by
      rcases foldl_laterOf_mem rest (laterOf acc x) s h with hmem | hacc
      · exact Or.inl (List.mem_cons_of_mem _ hmem)
      · cases hac : acc with
        | none =>
            rw [hac] at hacc
            simp only [laterOf, Option.some.injEq] at hacc
            exact Or.inl (hacc ▸ List.mem_cons_self x rest)
        | some b =>
            rw [hac] at hacc
            simp only [laterOf] at hacc
            split_ifs at hacc with hlt
            · simp only [Option.some.injEq] at hacc
              exact Or.inl (hacc ▸ List.mem_cons_self x rest)
            · exact Or.inr hacc

/-- The fold of `laterOf` dominates every list element and the
accumulator in capture instant. -/
theorem foldl_laterOf_ge :
    ∀ (l : List Snap) (acc : Option Snap) (s : Snap),
      l.foldl laterOf acc = some s →
      (∀ x ∈ l, x.captured_at ≤ s.captured_at)
      ∧ (∀ b, acc = some b → b.captured_at ≤ s.captured_at)
  | [], _, s, h => by
      refine ⟨by simp, fun b hb => ?_⟩
      rw [hb] at h
      have h2 : b = s := Option.some.inj h
      rw [h2]
  | x :: rest, acc, s, h => by
      obtain ⟨c, hc, hxc, hbc⟩ := laterOf_ge acc x
      have ih := foldl_laterOf_ge rest (laterOf acc x) s h
      have hcs : c.captured_at ≤ s.captured_at := ih.2 c hc
      refine ⟨?_, fun b hb => le_trans (hbc b hb) hcs⟩
      intro y hy
      rcases List.mem_cons.mp hy with rfl | hy2
      · omega
      · exact ih.1 y hy2

/-- A fold of `laterOf` seeded with a row never yields `none`. -/
theorem foldl_laterOf_some :
    ∀ (l : List Snap) (b : Snap), ∃ s, l.foldl laterOf (some b) = some s
  | [], b => ⟨b, rfl⟩
  | x :: rest, b => by
      show ∃ s, rest.foldl laterOf (laterOf (some b) x) = some s
      simp only [laterOf]
      split_ifs
      · exact foldl_laterOf_some rest x
      · exact foldl_laterOf_some rest b

/-- The reference-snapshot query returns exactly the most recent row at or
before the cutoff, and `none` exactly when no row qualifies. -/
theorem latestAtOrBefore_spec (hist : List Snap) (c : Int) :
    (∀ s, latestAtOrBefore hist c = some s →
      s ∈ hist ∧ s.captured_at ≤ c
      ∧ ∀ x ∈ hist, x.captured_at ≤ c → x.captured_at ≤ s.captured_at)
    ∧ (latestAtOrBefore hist c = none ↔ ∀ x ∈ hist, c < x.captured_at) := by
  constructor
  · intro s hs
    unfold latestAtOrBefore at hs
    rcases foldl_laterOf_mem _ none s hs with hmem | habs
    · have hsf := List.mem_filter.mp hmem
      refine ⟨hsf.1, by simpa using hsf.2, ?_⟩
      intro x hx hxc
      exact (foldl_laterOf_ge _ none s hs).1 x
        (List.mem_filter.mpr ⟨hx, by simpa using hxc⟩)
    · exact Option.noConfusion habs
  · constructor
    · intro hnone x hx
      by_contra hgt
      push_neg at hgt
      unfold latestAtOrBefore at hnone
      have hxf : x ∈ hist.filter (fun s => s.captured_at ≤ c) :=
        List.mem_filter.mpr ⟨hx, by simpa using hgt⟩
      cases hfl : hist.filter (fun s => s.captured_at ≤ c) with
      | nil => rw [hfl] at hxf; simp at hxf
      | cons y ys =>
          rw [hfl] at hnone
          obtain ⟨s, hsome⟩ := foldl_laterOf_some ys y
          have : ys.foldl laterOf (some y) = none := hnone
          rw [hsome] at this
          exact Option.noConfusion this
    · intro hall
      unfold latestAtOrBefore
      have hfl : hist.filter (fun s => s.captured_at ≤ c) = [] := by
        rw [List.filter_eq_nil_iff]
        intro x hx
        simpa using not_le.mpr (hall x hx)
      rw [hfl]
      rfl

/-- C8: in both delta endpoints, each window's reference snapshot is the
most recent row at or before now minus the window (and `none` exactly when
no such row exists); a delta is the signed difference of the two metric
values, absent exactly when either snapshot is missing or that metric is
absent in either snapshot; a missing snapshot blanks all its window's
deltas while other metrics of an intact window are computed normally; and
the bulk endpoint agrees with the per-item endpoint on every identifier. -/
theorem delta_engine_spec (now w : Int) (hist : List Snap)
    (asins : List String) (h : List (String × Snap)) :
    (∀ s, get_closest hist now w = some s →
      s ∈ hist ∧ s.captured_at ≤ now - w * 1440
      ∧ ∀ x ∈ hist, x.captured_at ≤ now - w * 1440 →
          x.captured_at ≤ s.captured_at)
    ∧ (get_closest hist now w = none ↔
        ∀ x ∈ hist, now - w * 1440 < x.captured_at)
    ∧ (∀ (cr pr : Snap) (f : Snap → Option ℚ) (cv pv : ℚ),
        f cr = some cv → f pr = some pv →
        delta (some cr) (some pr) f = some (cv - pv))
    ∧ (∀ (cr pr : Snap) (f : Snap → Option ℚ),
        delta (some cr) (some pr) f = none ↔ f cr = none ∨ f pr = none)
    ∧ (∀ p f, delta none p f = none)
    ∧ (∀ c f, delta c none f = none)
    ∧ (∀ p30 p90 p180, mkDeltas none p30 p90 p180 = noDeltas)
    ∧ (∀ c p30 p90 p180,
        (mkDeltas c p30 p90 p180).price_delta_30 = delta c p30 Snap.buybox_price
        ∧ (mkDeltas c p30 p90 p180).new_price_delta_30 = delta c p30 Snap.new_price
        ∧ (mkDeltas c p30 p90 p180).rank_delta_30 = delta c p30 Snap.rank
        ∧ (mkDeltas c p30 p90 p180).seller_delta_30 = delta c p30 Snap.seller_count
        ∧ (mkDeltas c p30 p90 p180).price_delta_90 = delta c p90 Snap.buybox_price
        ∧ (mkDeltas c p30 p90 p180).new_price_delta_90 = delta c p90 Snap.new_price
        ∧ (mkDeltas c p30 p90 p180).rank_delta_90 = delta c p90 Snap.rank
        ∧ (mkDeltas c p30 p90 p180).seller_delta_90 = delta c p90 Snap.seller_count
        ∧ (mkDeltas c p30 p90 p180).price_delta_180 = delta c p180 Snap.buybox_price
        ∧ (mkDeltas c p30 p90 p180).new_price_delta_180 = delta c p180 Snap.new_price
        ∧ (mkDeltas c p30 p90 p180).rank_delta_180 = delta c p180 Snap.rank
        ∧ (mkDeltas c p30 p90 p180).seller_delta_180 = delta c p180 Snap.seller_count)
    ∧ (∀ c p30 p90 p180,
        (mkDeltas c none p90 p180).price_delta_30 = none
        ∧ (mkDeltas c none p90 p180).new_price_delta_30 = none
        ∧ (mkDeltas c none p90 p180).rank_delta_30 = none
        ∧ (mkDeltas c none p90 p180).seller_delta_30 = none
        ∧ (mkDeltas c p30 none p180).price_delta_90 = none
        ∧ (mkDeltas c p30 none p180).new_price_delta_90 = none
        ∧ (mkDeltas c p30 none p180).rank_delta_90 = none
        ∧ (mkDeltas c p30 none p180).seller_delta_90 = none
        ∧ (mkDeltas c p30 p90 none).price_delta_180 = none
        ∧ (mkDeltas c p30 p90 none).new_price_delta_180 = none
        ∧ (mkDeltas c p30 p90 none).rank_delta_180 = none
        ∧ (mkDeltas c p30 p90 none).seller_delta_180 = none)
    ∧ get_deltas now hist
        = mkDeltas (get_closest hist now 0) (get_closest hist now 30)
            (get_closest hist now 90) (get_closest hist now 180)
    ∧ get_all_deltas now asins h
        = asins.map (fun a => (a, get_deltas now (histOf h a))) := by
  have hspec := latestAtOrBefore_spec hist (now - w * 1440)
  refine ⟨hspec.1, hspec.2, ?_, ?_, fun p f => rfl, fun c f => by cases c <;> rfl,
    fun p30 p90 p180 => rfl, fun c p30 p90 p180 => ?_, fun c p30 p90 p180 => ?_,
    rfl, rfl⟩
  · intro cr pr f cv pv hcv hpv
    simp [delta, hcv, hpv]
  · intro cr pr f
    unfold delta
    cases hc : f cr <;> cases hp : f pr <;> simp [hc, hp]
  · exact ⟨rfl, rfl, rfl, rfl, rfl, rfl, rfl, rfl, rfl, rfl, rfl, rfl⟩
  · refine ⟨?_, ?_, ?_, ?_, ?_, ?_, ?_, ?_, ?_, ?_, ?_, ?_⟩ <;>
      simp only [mkDeltas] <;> (first | rfl | (cases c <;> rfl))

/-- Upserting key `k` makes `k` read back the new value. -/
theorem get_setting_upsert_self :
    ∀ (d : List (String × String)) (k v : String),
      get_setting (upsert d k v) k = some v
  | [], k, v => by simp [upsert, get_setting]
  | p :: rest, k, v => by
      by_cases hp : p.1 = k
      · simp [upsert, get_setting, hp]
      · simp [upsert, get_setting, hp, get_setting_upsert_self rest k v]

/-- Upserting key `k` leaves every other key's read unchanged. -/
theorem get_setting_upsert_other :
    ∀ (d : List (String × String)) (k v k' : String), k' ≠ k →
      get_setting (upsert d k v) k' = get_setting d k'
  | [], k, v, k', hk => by
      simp [upsert, get_setting, Ne.symm hk]
  | p :: rest, k, v, k', hk => by
      by_cases hp : p.1 = k
      · have h2 : p.1 ≠ k' := by rw [hp]; exact Ne.symm hk
        simp [upsert, get_setting, hp, Ne.symm hk, h2]
      · simp [upsert, get_setting, hp, get_setting_upsert_other rest k v k' hk]

/-- Reading the filtered settings never yields the credential key. -/
theorem get_settings_no_key :
    ∀ (db : List (String × String)),
      get_setting (get_settings db) "keepa_api_key" = none
  | [] => rfl
  | p :: rest => by
      by_cases hp : p.1 = "keepa_api_key"
      · simpa [get_settings, List.filter_cons, hp] using get_settings_no_key rest
      · simpa [get_settings, List.filter_cons, hp, get_setting]
          using get_settings_no_key rest

/-- Saving any payload leaves the stored credential untouched. -/
theorem save_settings_key_unchanged :
    ∀ (payload db : List (String × String)),
      get_setting (save_settings db payload) "keepa_api_key"
        = get_setting db "keepa_api_key"
  | [], _ => rfl
  | p :: rest, db => by
      by_cases hp : p.1 = "keepa_api_key"
      · have hstep : save_settings db (p :: rest) = save_settings db rest := by
          simp [save_settings, hp]
        rw [hstep]
        exact save_settings_key_unchanged rest db
      · have hstep : save_settings db (p :: rest)
            = save_settings (upsert db p.1 p.2) rest := by
          simp [save_settings, hp]
        rw [hstep, save_settings_key_unchanged rest (upsert db p.1 p.2)]
        exact get_setting_upsert_other db p.1 p.2 "keepa_api_key"
          (fun he => hp he.symm)

/-- Saving a payload upserts every non-credential key: reading such a key
afterwards yields its last submitted value, or its previous value when it
was not submitted. -/
theorem save_settings_other_keys :
    ∀ (payload db : List (String × String)) (k : String),
      k ≠ "keepa_api_key" →
      get_setting (save_settings db payload) k
        = ((payload.filter (fun q => q.1 = k)).getLast?).elim
            (get_setting db k) (fun q => some q.2)
  | [], _, _, _ => rfl
  | p :: rest, db, k, hk => by
      by_cases hpkey : p.1 = "keepa_api_key"
      · have hstep : save_settings db (p :: rest) = save_settings db rest := by
          simp [save_settings, hpkey]
        have hpk : p.1 ≠ k := by rw [hpkey]; exact Ne.symm hk
        rw [hstep, List.filter_cons, if_neg (by simpa using hpk)]
        exact save_settings_other_keys rest db k hk
      · have hstep : save_settings db (p :: rest)
            = save_settings (upsert db p.1 p.2) rest := by
          simp [save_settings, hpkey]
        rw [hstep, save_settings_other_keys rest (upsert db p.1 p.2) k hk]
        by_cases hpk : p.1 = k
        · rw [List.filter_cons, if_pos (by simpa using hpk)]
          cases hfr : rest.filter (fun q => q.1 = k) with
          | nil =>
              have hself : get_setting (upsert db p.1 p.2) k = some p.2 := by
                rw [← hpk]
                exact get_setting_upsert_self db p.1 p.2
              simp [hself]
          | cons y ys =>
              obtain ⟨z, hz⟩ := Option.isSome_iff_exists.mp
                (List.getLast?_isSome.mpr (List.cons_ne_nil y ys))
              rw [List.getLast?_cons_cons, hz]
              rfl
        · rw [List.filter_cons, if_neg (by simpa using hpk)]
          rw [get_setting_upsert_other db p.1 p.2 k (fun he => hpk he.symm)]

/-- C10: the settings interface isolates the credential — reading settings
never exposes the `keepa_api_key` entry, saving any payload leaves the
stored credential value unchanged, and every other submitted key is
upserted (its read afterwards is the last submitted value). -/
theorem settings_credential_isolation (db payload : List (String × String)) :
    (∀ p ∈ get_settings db, p.1 ≠ "keepa_api_key")
    ∧ get_setting (get_settings db) "keepa_api_key" = none
    ∧ get_setting (save_settings db payload) "keepa_api_key"
        = get_setting db "keepa_api_key"
    ∧ (∀ k, k ≠ "keepa_api_key" →
        get_setting (save_settings db payload) k
          = ((payload.filter (fun q => q.1 = k)).getLast?).elim
              (get_setting db k) (fun q => some q.2)) := by
  refine ⟨?_, get_settings_no_key db, save_settings_key_unchanged payload db,
    fun k hk => save_settings_other_keys payload db k hk⟩
  intro p hp
  have := List.of_mem_filter hp
  simpa using this

end AsinTracker

